import Mathlib

/-!
Verification of the interactive geometry engine of `Annotate.js`
(`src/src/Annotate.js`), shallowly embedded over exact rational
arithmetic: JavaScript numbers become `ℚ`, canvas-context state becomes
explicit state passing, and the fallible `restore` (popping an empty
stack) returns `Option`.
-/

namespace AnnotateJs

/-- A 2-D point, as the `{x, y}` objects of the source. -/
@[ext]
structure Point where
  x : ℚ
  y : ℚ
deriving DecidableEq

/-- The 2-D affine matrix tracked by `trackTransforms` (SVGMatrix layout:
columns `(a b)`, `(c d)`, translation `(e f)`). -/
@[ext]
structure Mat where
  a : ℚ
  b : ℚ
  c : ℚ
  d : ℚ
  e : ℚ
  f : ℚ
deriving DecidableEq

/-- Determinant of the linear part. -/
def Mat.det (m : Mat) : ℚ := m.a * m.d - m.b * m.c

/-- SVGMatrix multiplication `m.multiply(n)` (apply `n` first, then `m`). -/
def Mat.multiply (m n : Mat) : Mat :=
  { a := m.a * n.a + m.c * n.b
    b := m.b * n.a + m.d * n.b
    c := m.a * n.c + m.c * n.d
    d := m.b * n.c + m.d * n.d
    e := m.a * n.e + m.c * n.f + m.e
    f := m.b * n.e + m.d * n.f + m.f }

/-- The identity matrix (`createSVGMatrix()`). -/
def Mat.identity : Mat := ⟨1, 0, 0, 1, 0, 0⟩

/-- Translation matrix, as composed by `ctx.translate(dx, dy)`. -/
def translateMat (dx dy : ℚ) : Mat := ⟨1, 0, 0, 1, dx, dy⟩

/-- Non-uniform scaling matrix, as composed by `ctx.scale(sx, sy)`
(`scaleNonUniform`). -/
def scaleMat (sx sy : ℚ) : Mat := ⟨sx, 0, 0, sy, 0, 0⟩

/-- Rotation matrix, as composed by `ctx.rotate(radians)`; `c` and `s` are
the cosine and sine of the angle. -/
def rotateMat (c s : ℚ) : Mat := ⟨c, s, -s, c, 0, 0⟩

/-- `SVGMatrix.inverse()`: the affine inverse via the adjugate. -/
def Mat.inverse (m : Mat) : Mat :=
  { a := m.d / m.det
    b := -m.b / m.det
    c := -m.c / m.det
    d := m.a / m.det
    e := (m.c * m.f - m.d * m.e) / m.det
    f := (m.b * m.e - m.a * m.f) / m.det }

/-- `pt.matrixTransform(m)`: apply the affine map to a point. -/
def Mat.apply (m : Mat) (p : Point) : Point :=
  ⟨m.a * p.x + m.c * p.y + m.e, m.b * p.x + m.d * p.y + m.f⟩

/-- `ctx.transformedPoint(x, y)`: map a device point through the inverse of
the tracked matrix (the `toLogical` of the spec). -/
def transformedPoint (m : Mat) (x y : ℚ) : Point :=
  m.inverse.apply ⟨x, y⟩

theorem Mat.apply_multiply (m n : Mat) (p : Point) :
    (m.multiply n).apply p = m.apply (n.apply p) := by
  simp only [Mat.multiply, Mat.apply, Point.mk.injEq]
  constructor <;> ring

theorem Mat.det_multiply (m n : Mat) :
    (m.multiply n).det = m.det * n.det := by
  simp only [Mat.multiply, Mat.det]
  ring

theorem Mat.inverse_apply_apply (m : Mat) (h : m.det ≠ 0) (p : Point) :
    m.inverse.apply (m.apply p) = p := by
  have hd : m.a * m.d - m.b * m.c ≠ 0 := h
  simp only [Mat.inverse, Mat.apply, Mat.det]
  ext <;> (simp only []; field_simp; ring)

theorem Mat.apply_inverse_apply (m : Mat) (h : m.det ≠ 0) (p : Point) :
    m.apply (m.inverse.apply p) = p := by
  have hd : m.a * m.d - m.b * m.c ≠ 0 := h
  simp only [Mat.inverse, Mat.apply, Mat.det]
  ext <;> (simp only []; field_simp; ring)

/-! ### The `trackTransforms` state machine (C2) -/

/-- One tracked transform operation: every context method overridden by
`trackTransforms`.  `rotate c s` carries the cosine and sine of the angle
(the source converts radians to degrees for the SVG call; the composed
matrix is the rotation by the original angle). -/
inductive TOp where
  | translate (dx dy : ℚ)
  | scale (sx sy : ℚ)
  | rotate (c s : ℚ)
  | transform (a b c d e f : ℚ)
  | setTransform (a b c d e f : ℚ)
  | save
  | restore
deriving DecidableEq

/-- The state owned by `trackTransforms`: the current matrix `xform` and
the `savedTransforms` stack (head = most recently saved). -/
structure CtxState where
  xform : Mat
  savedTransforms : List Mat
deriving DecidableEq

/-- Execute one tracked operation.  `restore` pops the saved stack;
popping an empty stack makes `xform` undefined in the source, modelled as
`none`. -/
def stepOp (st : CtxState) : TOp → Option CtxState
  | .translate dx dy =>
      some { st with xform := st.xform.multiply (translateMat dx dy) }
  | .scale sx sy =>
      some { st with xform := st.xform.multiply (scaleMat sx sy) }
  | .rotate c s =>
      some { st with xform := st.xform.multiply (rotateMat c s) }
  | .transform a b c d e f =>
      some { st with xform := st.xform.multiply ⟨a, b, c, d, e, f⟩ }
  | .setTransform a b c d e f =>
      some { st with xform := ⟨a, b, c, d, e, f⟩ }
  | .save =>
      some { st with savedTransforms := st.xform :: st.savedTransforms }
  | .restore =>
      match st.savedTransforms with
      | [] => none
      | m :: rest => some ⟨m, rest⟩

/-- Execute a sequence of tracked operations. -/
def runOps : CtxState → List TOp → Option CtxState
  | st, [] => some st
  | st, op :: ops => (stepOp st op).bind (fun st2 => runOps st2 ops)

/-- The initial tracked state: identity matrix, empty stack. -/
def initCtx : CtxState := ⟨Mat.identity, []⟩

/-- An operation whose composed (or installed) matrix is invertible:
scaling by nonzero factors, any rotation with `c² + s² ≠ 0` (true of every
real cosine/sine pair), and `transform`/`setTransform` with an invertible
linear part.  `translate`, `save` and `restore` always qualify. -/
def opNonsingular : TOp → Bool
  | .scale sx sy => sx != 0 && sy != 0
  | .rotate c s => c ^ 2 + s ^ 2 != 0
  | .transform a b c d _ _ => a * d - b * c != 0
  | .setTransform a b c d _ _ => a * d - b * c != 0
  | _ => true

/-- Invariant: the current matrix and every saved matrix are invertible. -/
def GoodCtx (st : CtxState) : Prop :=
  st.xform.det ≠ 0 ∧ ∀ m ∈ st.savedTransforms, m.det ≠ 0

theorem det_translateMat (dx dy : ℚ) : (translateMat dx dy).det = 1 := by
  simp [translateMat, Mat.det]

theorem det_scaleMat (sx sy : ℚ) : (scaleMat sx sy).det = sx * sy := by
  simp [scaleMat, Mat.det]

theorem det_rotateMat (c s : ℚ) : (rotateMat c s).det = c ^ 2 + s ^ 2 := by
  simp [rotateMat, Mat.det]
  ring

theorem stepOp_good {st st2 : CtxState} {op : TOp}
    (hg : GoodCtx st) (hop : opNonsingular op = true)
    (h : stepOp st op = some st2) : GoodCtx st2 := by
  obtain ⟨hx, hs⟩ := hg
  cases op with
  | translate dx dy =>
      simp only [stepOp, Option.some.injEq] at h
      subst h
      refine ⟨?_, hs⟩
      simp [Mat.det_multiply, det_translateMat, hx]
  | scale sx sy =>
      simp only [opNonsingular, Bool.and_eq_true, bne_iff_ne, ne_eq] at hop
      simp only [stepOp, Option.some.injEq] at h
      subst h
      refine ⟨?_, hs⟩
      simp [Mat.det_multiply, det_scaleMat, hx, hop.1, hop.2]
  | rotate c s =>
      simp only [opNonsingular, bne_iff_ne, ne_eq] at hop
      simp only [stepOp, Option.some.injEq] at h
      subst h
      refine ⟨?_, hs⟩
      simp [Mat.det_multiply, det_rotateMat, hx, hop]
  | transform a b c d e f =>
      simp only [opNonsingular, bne_iff_ne, ne_eq] at hop
      simp only [stepOp, Option.some.injEq] at h
      subst h
      refine ⟨?_, hs⟩
      have : (Mat.mk a b c d e f).det ≠ 0 := hop
      simp [Mat.det_multiply, hx, this]
  | setTransform a b c d e f =>
      simp only [opNonsingular, bne_iff_ne, ne_eq] at hop
      simp only [stepOp, Option.some.injEq] at h
      subst h
      exact ⟨hop, hs⟩
  | save =>
      simp only [stepOp, Option.some.injEq] at h
      subst h
      refine ⟨hx, ?_⟩
      intro m hm
      rcases List.mem_cons.mp hm with hm | hm
      · exact hm ▸ hx
      · exact hs m hm
  | restore =>
      cases hstk : st.savedTransforms with
      | nil => simp [stepOp, hstk] at h
      | cons m rest =>
          simp only [stepOp, hstk, Option.some.injEq] at h
          subst h
          refine ⟨hs m (hstk ▸ List.mem_cons_self m rest), ?_⟩
          intro n hn
          exact hs n (hstk ▸ List.mem_cons_of_mem m hn)

theorem runOps_good {ops : List TOp} {st st2 : CtxState}
    (hg : GoodCtx st) (hops : ∀ op ∈ ops, opNonsingular op = true)
    (h : runOps st ops = some st2) : GoodCtx st2 := by
  induction ops generalizing st with
  | nil =>
      simp only [runOps, Option.some.injEq] at h
      exact h ▸ hg
  | cons op ops ih =>
      simp only [runOps, Option.bind_eq_bind] at h
      cases hstep : stepOp st op with
      | none => simp [hstep] at h
      | some stMid =>
          rw [hstep] at h
          simp only [Option.some_bind] at h
          exact ih (stepOp_good hg (hops op (List.mem_cons_self op ops)) hstep)
            (fun o ho => hops o (List.mem_cons_of_mem op ho)) h

theorem initCtx_good : GoodCtx initCtx := by
  constructor
  · simp [initCtx, Mat.identity, Mat.det]
  · intro m hm
    simp [initCtx] at hm

/-- C2: for every sequence of tracked transform operations (each with an
invertible composed matrix, as every operation actually issued by the
component is), `transformedPoint` is the exact left-inverse of the tracked
forward matrix: mapping any logical point forward through the composed
matrix and back through `transformedPoint` returns the original point. -/
theorem transformedPoint_left_inverse (ops : List TOp) (st : CtxState)
    (hops : ∀ op ∈ ops, opNonsingular op = true)
    (hrun : runOps initCtx ops = some st) (p : Point) :
    transformedPoint st.xform (st.xform.apply p).x (st.xform.apply p).y = p := by
  have hg : GoodCtx st := runOps_good initCtx_good hops hrun
  show st.xform.inverse.apply ⟨(st.xform.apply p).x, (st.xform.apply p).y⟩ = p
  have : (⟨(st.xform.apply p).x, (st.xform.apply p).y⟩ : Point) = st.xform.apply p := rfl
  rw [this]
  exact Mat.inverse_apply_apply st.xform hg.1 p

/-- Concrete ops list for the C2 witness: translate, rotate by the 3-4-5
angle, scale, then a save/translate/restore bracket. -/
def opsC2 : List TOp :=
  [.translate 3 4, .rotate (3/5) (4/5), .scale 2 2, .save, .translate 1 1, .restore]

/-- The tracked state reached by `opsC2`. -/
def ctxC2 : CtxState := ⟨⟨6/5, 8/5, -8/5, 6/5, 3, 4⟩, []⟩

theorem opsC2_nonsingular : ∀ op ∈ opsC2, opNonsingular op = true := by
  intro op hop
  fin_cases hop <;>
    simp only [opNonsingular, bne_iff_ne, ne_eq, Bool.and_eq_true] <;>
    norm_num

theorem runOps_opsC2 : runOps initCtx opsC2 = some ctxC2 := by
  simp only [opsC2, runOps, stepOp, initCtx, ctxC2, Mat.multiply, Mat.identity,
    translateMat, rotateMat, scaleMat, Option.bind_eq_bind, Option.some_bind,
    Option.some.injEq, CtxState.mk.injEq, Mat.mk.injEq]
  norm_num

/-- Witness for C2 at a concrete operation sequence and point. -/
theorem transformedPoint_left_inverse_witness :
    (∀ op ∈ opsC2, opNonsingular op = true) ∧
    runOps initCtx opsC2 = some ctxC2 ∧
    transformedPoint ctxC2.xform
      (ctxC2.xform.apply ⟨7, -2⟩).x (ctxC2.xform.apply ⟨7, -2⟩).y = ⟨7, -2⟩ :=
  ⟨opsC2_nonsingular, runOps_opsC2,
   transformedPoint_left_inverse opsC2 ctxC2 opsC2_nonsingular runOps_opsC2 ⟨7, -2⟩⟩

/-! ### Zoom (C3, C4) -/

/-- `Annotate.MAX_ZOOM = 5`. -/
def MAX_ZOOM : ℚ := 5

/-- `Annotate.MIN_ZOOM = 0.2`. -/
def MIN_ZOOM : ℚ := 2/10

/-- `Annotate.SCALE_FACTOR = 1.1`. -/
def SCALE_FACTOR : ℚ := 11/10

/-- The `zoom(clicks)` method: anchor at the transformed pointer position,
compute `factor = SCALE_FACTOR ^ clicks`, read the current axis scales from
the tracked matrix, scale only when both candidate scales are strictly
inside `(MIN_ZOOM, MAX_ZOOM)`, then translate back.  The method only
touches the tracked matrix (the `redraw()` call at the end does not). -/
def zoom (m : Mat) (lastX lastY : ℚ) (clicks : ℤ) : Mat :=
  let pt := transformedPoint m lastX lastY
  let m1 := m.multiply (translateMat pt.x pt.y)
  let factor := SCALE_FACTOR ^ clicks
  let potentialScaleX := m1.a * factor
  let potentialScaleY := m1.d * factor
  let m2 :=
    if potentialScaleX > MIN_ZOOM ∧ potentialScaleX < MAX_ZOOM ∧
       potentialScaleY > MIN_ZOOM ∧ potentialScaleY < MAX_ZOOM then
      m1.multiply (scaleMat factor factor)
    else m1
  m2.multiply (translateMat (-pt.x) (-pt.y))

/-- The guard of `zoom`, phrased on the matrix before the anchor translate
(translation does not change the `a`/`d` entries the guard reads). -/
def zoomApplies (m : Mat) (clicks : ℤ) : Prop :=
  m.a * SCALE_FACTOR ^ clicks > MIN_ZOOM ∧ m.a * SCALE_FACTOR ^ clicks < MAX_ZOOM ∧
  m.d * SCALE_FACTOR ^ clicks > MIN_ZOOM ∧ m.d * SCALE_FACTOR ^ clicks < MAX_ZOOM

instance (m : Mat) (clicks : ℤ) : Decidable (zoomApplies m clicks) := by
  unfold zoomApplies
  infer_instance

/-- Both tracked axis scales lie strictly inside the zoom bounds. -/
def scaleInBounds (m : Mat) : Prop :=
  MIN_ZOOM < m.a ∧ m.a < MAX_ZOOM ∧ MIN_ZOOM < m.d ∧ m.d < MAX_ZOOM

/-- A sequence of `zoom` calls (each with its pointer position and click
count), applied left to right. -/
def applyZooms (m : Mat) (calls : List (ℚ × ℚ × ℤ)) : Mat :=
  calls.foldl (fun acc call => zoom acc call.1 call.2.1 call.2.2) m

theorem multiply_translate_a (m : Mat) (dx dy : ℚ) :
    (m.multiply (translateMat dx dy)).a = m.a := by
  simp [Mat.multiply, translateMat]

theorem multiply_translate_d (m : Mat) (dx dy : ℚ) :
    (m.multiply (translateMat dx dy)).d = m.d := by
  simp [Mat.multiply, translateMat]

theorem multiply_scale_a (m : Mat) (sx sy : ℚ) :
    (m.multiply (scaleMat sx sy)).a = m.a * sx := by
  simp [Mat.multiply, scaleMat]

theorem multiply_scale_d (m : Mat) (sx sy : ℚ) :
    (m.multiply (scaleMat sx sy)).d = m.d * sy := by
  simp [Mat.multiply, scaleMat]

theorem multiply_translate_cancel (m : Mat) (dx dy : ℚ) :
    (m.multiply (translateMat dx dy)).multiply (translateMat (-dx) (-dy)) = m := by
  simp only [Mat.multiply, translateMat]
  ext <;> (simp only []; ring)

/-- In the no-op branch `zoom` composes the two anchor translations and
nothing else, which cancel exactly. -/
theorem zoom_noop (m : Mat) (lastX lastY : ℚ) (clicks : ℤ)
    (h : ¬ zoomApplies m clicks) : zoom m lastX lastY clicks = m := by
  unfold zoom
  simp only [multiply_translate_a, multiply_translate_d]
  rw [if_neg (by exact fun hc => h hc)]
  exact multiply_translate_cancel m _ _

/-- In the applied branch the `a` entry becomes the candidate scale. -/
theorem zoom_applied_a (m : Mat) (lastX lastY : ℚ) (clicks : ℤ)
    (h : zoomApplies m clicks) :
    (zoom m lastX lastY clicks).a = m.a * SCALE_FACTOR ^ clicks := by
  unfold zoom
  simp only [multiply_translate_a, multiply_translate_d]
  rw [if_pos (by exact h)]
  simp [multiply_translate_a, multiply_scale_a]

/-- In the applied branch the `d` entry becomes the candidate scale. -/
theorem zoom_applied_d (m : Mat) (lastX lastY : ℚ) (clicks : ℤ)
    (h : zoomApplies m clicks) :
    (zoom m lastX lastY clicks).d = m.d * SCALE_FACTOR ^ clicks := by
  unfold zoom
  simp only [multiply_translate_a, multiply_translate_d]
  rw [if_pos (by exact h)]
  simp [multiply_translate_d, multiply_scale_d]

theorem zoom_preserves_bounds (m : Mat) (lastX lastY : ℚ) (clicks : ℤ)
    (h : scaleInBounds m) : scaleInBounds (zoom m lastX lastY clicks) := by
  by_cases hz : zoomApplies m clicks
  · obtain ⟨h1, h2, h3, h4⟩ := hz
    exact ⟨by rw [zoom_applied_a m lastX lastY clicks ⟨h1, h2, h3, h4⟩]; exact h1,
           by rw [zoom_applied_a m lastX lastY clicks ⟨h1, h2, h3, h4⟩]; exact h2,
           by rw [zoom_applied_d m lastX lastY clicks ⟨h1, h2, h3, h4⟩]; exact h3,
           by rw [zoom_applied_d m lastX lastY clicks ⟨h1, h2, h3, h4⟩]; exact h4⟩
  · rw [zoom_noop m lastX lastY clicks hz]
    exact h

/-- C3: a zoom is applied only when the candidate scale on both axes is
strictly inside `(MIN_ZOOM, MAX_ZOOM)` (the candidate then becomes the new
axis scale); otherwise the tracked matrix is exactly unchanged; hence any
sequence of zoom calls starting from in-bounds axis scales keeps both axis
scales strictly between `MIN_ZOOM` and `MAX_ZOOM`. -/
theorem zoom_bounded :
    (∀ (m : Mat) (lastX lastY : ℚ) (clicks : ℤ), zoomApplies m clicks →
      (zoom m lastX lastY clicks).a = m.a * SCALE_FACTOR ^ clicks ∧
      (zoom m lastX lastY clicks).d = m.d * SCALE_FACTOR ^ clicks) ∧
    (∀ (m : Mat) (lastX lastY : ℚ) (clicks : ℤ), ¬ zoomApplies m clicks →
      zoom m lastX lastY clicks = m) ∧
    (∀ (calls : List (ℚ × ℚ × ℤ)) (m : Mat), scaleInBounds m →
      scaleInBounds (applyZooms m calls)) := by
  refine ⟨fun m lx ly k h => ⟨zoom_applied_a m lx ly k h, zoom_applied_d m lx ly k h⟩,
          fun m lx ly k h => zoom_noop m lx ly k h, ?_⟩
  intro calls
  induction calls with
  | nil => intro m h; exact h
  | cons call rest ih =>
      intro m h
      have h1 := zoom_preserves_bounds m call.1 call.2.1 call.2.2 h
      simpa only [applyZooms, List.foldl_cons] using ih _ h1

/-- Witness for C3: an in-range zoom-in updates the scales, a zoom far out
of range is the identity on the matrix, and ten consecutive zoom-ins from
scale 1 stay within bounds. -/
theorem zoom_bounded_witness :
    zoomApplies Mat.identity 1 ∧
    ((zoom Mat.identity 0 0 1).a = 1 * SCALE_FACTOR ^ (1 : ℤ) ∧
     (zoom Mat.identity 0 0 1).d = 1 * SCALE_FACTOR ^ (1 : ℤ)) ∧
    ¬ zoomApplies Mat.identity 100 ∧
    zoom Mat.identity 0 0 100 = Mat.identity ∧
    scaleInBounds Mat.identity ∧
    scaleInBounds (applyZooms Mat.identity (List.replicate 10 (0, 0, 1))) := by
  have happ : zoomApplies Mat.identity 1 := by
    unfold zoomApplies SCALE_FACTOR MIN_ZOOM MAX_ZOOM Mat.identity
    norm_num
  have hnotapp : ¬ zoomApplies Mat.identity 100 := by
    unfold zoomApplies SCALE_FACTOR MIN_ZOOM MAX_ZOOM Mat.identity
    intro hcontra
    have h2 : ((11:ℚ)/10) ^ (100 : ℤ) < 5 := by
      have := hcontra.2.1
      simpa using this
    have hge : (5:ℚ) ≤ ((11:ℚ)/10) ^ (100 : ℤ) := by
      have hbase : (1:ℚ) + 1/10 ≤ 11/10 := by norm_num
      have h40 : ((11:ℚ)/10) ^ (100 : ℕ) ≥ 1 + 100 * (1/10) := by
        calc ((11:ℚ)/10) ^ (100 : ℕ) = (1 + 1/10) ^ (100 : ℕ) := by norm_num
          _ ≥ 1 + 100 * (1/10) := by
              have := one_add_mul_le_pow (show (-2 : ℚ) ≤ 1/10 by norm_num) 100
              simpa using this
      have : ((11:ℚ)/10) ^ (100 : ℤ) = ((11:ℚ)/10) ^ (100 : ℕ) := by
        norm_num
      rw [this]
      linarith
    linarith
  have hbounds : scaleInBounds Mat.identity := by
    unfold scaleInBounds MIN_ZOOM MAX_ZOOM Mat.identity
    norm_num
  exact ⟨happ,
         zoom_bounded.1 Mat.identity 0 0 1 happ,
         hnotapp,
         zoom_bounded.2.1 Mat.identity 0 0 100 hnotapp,
         hbounds,
         zoom_bounded.2.2 (List.replicate 10 (0, 0, 1)) Mat.identity hbounds⟩


/-- In the applied branch `zoom` composes anchor translate, scale, and the
inverse anchor translate onto the current matrix. -/
theorem zoom_applied_eq (m : Mat) (lastX lastY : ℚ) (clicks : ℤ)
    (h : zoomApplies m clicks) :
    zoom m lastX lastY clicks =
      ((m.multiply (translateMat (transformedPoint m lastX lastY).x
          (transformedPoint m lastX lastY).y)).multiply
        (scaleMat (SCALE_FACTOR ^ clicks) (SCALE_FACTOR ^ clicks))).multiply
        (translateMat (-(transformedPoint m lastX lastY).x)
          (-(transformedPoint m lastX lastY).y)) := by
  unfold zoom
  simp only [multiply_translate_a, multiply_translate_d]
  rw [if_pos (by exact h)]

/-- C4: an applied (in-bounds) zoom keeps the anchor fixed: the logical
point under the pointer before the zoom still maps to the same device
position afterwards, and `transformedPoint(lastX, lastY)` is the same
immediately before and immediately after the call. -/
theorem zoom_anchor_fixed (m : Mat) (lastX lastY : ℚ) (clicks : ℤ)
    (hdet : m.det ≠ 0) (happ : zoomApplies m clicks) :
    (zoom m lastX lastY clicks).apply (transformedPoint m lastX lastY) =
      ⟨lastX, lastY⟩ ∧
    transformedPoint (zoom m lastX lastY clicks) lastX lastY =
      transformedPoint m lastX lastY := by
  set pt := transformedPoint m lastX lastY with hpt
  set f := SCALE_FACTOR ^ clicks with hf
  have hexp := zoom_applied_eq m lastX lastY clicks happ
  have hfwd : (zoom m lastX lastY clicks).apply pt = ⟨lastX, lastY⟩ := by
    rw [hexp, Mat.apply_multiply, Mat.apply_multiply, Mat.apply_multiply]
    have h1 : (translateMat (-pt.x) (-pt.y)).apply pt = ⟨0, 0⟩ := by
      simp [translateMat, Mat.apply]
    have h2 : (scaleMat f f).apply ⟨0, 0⟩ = ⟨0, 0⟩ := by
      simp [scaleMat, Mat.apply]
    have h3 : (translateMat pt.x pt.y).apply ⟨0, 0⟩ = pt := by
      simp [translateMat, Mat.apply]
    rw [h1, h2, h3, hpt]
    exact Mat.apply_inverse_apply m hdet ⟨lastX, lastY⟩
  have hfne : f ≠ 0 := by
    rw [hf]
    exact zpow_ne_zero clicks (by norm_num [SCALE_FACTOR])
  have hdetz : (zoom m lastX lastY clicks).det ≠ 0 := by
    rw [hexp, Mat.det_multiply, Mat.det_multiply, Mat.det_multiply,
      det_translateMat, det_translateMat, det_scaleMat]
    simp only [mul_one]
    exact mul_ne_zero hdet (mul_ne_zero hfne hfne)
  refine ⟨hfwd, ?_⟩
  have hroundtrip := Mat.inverse_apply_apply (zoom m lastX lastY clicks) hdetz pt
  rw [hfwd] at hroundtrip
  exact hroundtrip

/-- Witness for C4: the identity transform, pointer at `(3, 3)`, one
zoom-in click. -/
theorem zoom_anchor_fixed_witness :
    Mat.identity.det ≠ 0 ∧ zoomApplies Mat.identity 1 ∧
    ((zoom Mat.identity 3 3 1).apply (transformedPoint Mat.identity 3 3) =
       ⟨3, 3⟩ ∧
     transformedPoint (zoom Mat.identity 3 3 1) 3 3 =
       transformedPoint Mat.identity 3 3) := by
  have h1 : Mat.identity.det ≠ 0 := by norm_num [Mat.identity, Mat.det]
  have h2 : zoomApplies Mat.identity 1 := by
    unfold zoomApplies SCALE_FACTOR MIN_ZOOM MAX_ZOOM Mat.identity
    norm_num
  exact ⟨h1, h2, zoom_anchor_fixed Mat.identity 3 3 1 h1 h2⟩

/-! ### Annotation records and hit testing (C1, C5, C7, C8, C10) -/

/-- `Annotate.HANDLE_SIZE = 15`. -/
def HANDLE_SIZE : ℚ := 15

/-- An annotation record, with the fields pushed by the mouseup listener.
`endPt` embeds the `end` field of the source (a Lean keyword); `selected` is the
transient flag toggled by the hit test (absent before the first scan,
modelled as `false`); `ID` is `null` at creation. -/
structure Annotation where
  start_relativ : Point
  end_relativ : Point
  start : Point
  endPt : Point
  name : String
  class_id : ℤ
  annotationColor : String
  state : String
  ID : Option ℤ := none
  selected : Bool := false
deriving DecidableEq

/-- The record returned by `getAnnotationDimensions`. -/
structure Dimensions where
  startX : ℚ
  startY : ℚ
  width : ℚ
  height : ℚ
  endX : ℚ
  endY : ℚ
deriving DecidableEq

/-- `getAnnotationDimensions`: normalize the two corners with
componentwise min/max and derive width/height. -/
def getAnnotationDimensions (ann : Annotation) : Dimensions :=
  let startX := min ann.start.x ann.endPt.x
  let endX := max ann.start.x ann.endPt.x
  let startY := min ann.start.y ann.endPt.y
  let endY := max ann.start.y ann.endPt.y
  { startX := startX, startY := startY,
    width := |endX - startX|, height := |endY - startY|,
    endX := endX, endY := endY }

/-- The containment test inside `isHoveringOverAnnotation`: the point lies
in the bounding box expanded by `annotationDetectionThreshold` on all
sides. -/
def annotationContains (threshold x y : ℚ) (ann : Annotation) : Bool :=
  let d := getAnnotationDimensions ann
  decide (d.startX - threshold ≤ x ∧ x ≤ d.startX + d.width + threshold ∧
          d.startY - threshold ≤ y ∧ y ≤ d.startY + d.height + threshold)

/-- The scan loop of `isHoveringOverAnnotation` over an (already reversed)
list: returns the first match (with `selected` set to `true`) and the list
as left behind by the loop (`selected := false` on the elements scanned
before the match, untouched after the early return). -/
def scanLoop (threshold x y : ℚ) :
    List Annotation → Option Annotation × List Annotation
  | [] => (none, [])
  | ann :: rest =>
      if annotationContains threshold x y ann then
        (some { ann with selected := true }, { ann with selected := true } :: rest)
      else
        let r := scanLoop threshold x y rest
        (r.1, { ann with selected := false } :: r.2)

/-- `isHoveringOverAnnotation(x, y)`: the source first calls
`this.annotations.reverse()`, which reverses the stored array IN PLACE,
then scans the reversed array.  First component: the returned hover
target; second component: the stored collection after the call. -/
def isHoveringOverAnnotation (threshold x y : ℚ) (anns : List Annotation) :
    Option Annotation × List Annotation :=
  scanLoop threshold x y anns.reverse

/-- `isHoveringOverHandle(x, y, annotation)`: the eight square hit zones,
tested in source order. -/
def isHoveringOverHandle (x y : ℚ) (ann : Annotation) : Option String :=
  let d := getAnnotationDimensions ann
  if d.startX - HANDLE_SIZE ≤ x ∧ x ≤ d.startX + HANDLE_SIZE ∧
     d.startY - HANDLE_SIZE ≤ y ∧ y ≤ d.startY + HANDLE_SIZE then
    some "top-left"
  else if d.startX + d.width - HANDLE_SIZE ≤ x ∧ x ≤ d.startX + d.width + HANDLE_SIZE ∧
     d.startY - HANDLE_SIZE ≤ y ∧ y ≤ d.startY + HANDLE_SIZE then
    some "top-right"
  else if d.startX - HANDLE_SIZE ≤ x ∧ x ≤ d.startX + HANDLE_SIZE ∧
     d.startY + d.height - HANDLE_SIZE ≤ y ∧ y ≤ d.startY + d.height + HANDLE_SIZE then
    some "bottom-left"
  else if d.startX + d.width - HANDLE_SIZE ≤ x ∧ x ≤ d.startX + d.width + HANDLE_SIZE ∧
     d.startY + d.height - HANDLE_SIZE ≤ y ∧ y ≤ d.startY + d.height + HANDLE_SIZE then
    some "bottom-right"
  else if d.startX + d.width / 2 - HANDLE_SIZE ≤ x ∧ x ≤ d.startX + d.width / 2 + HANDLE_SIZE ∧
     d.startY - HANDLE_SIZE ≤ y ∧ y ≤ d.startY + HANDLE_SIZE then
    some "top-middle"
  else if d.startX + d.width / 2 - HANDLE_SIZE ≤ x ∧ x ≤ d.startX + d.width / 2 + HANDLE_SIZE ∧
     d.startY + d.height - HANDLE_SIZE ≤ y ∧ y ≤ d.startY + d.height + HANDLE_SIZE then
    some "bottom-middle"
  else if d.startX - HANDLE_SIZE ≤ x ∧ x ≤ d.startX + HANDLE_SIZE ∧
     d.startY + d.height / 2 - HANDLE_SIZE ≤ y ∧ y ≤ d.startY + d.height / 2 + HANDLE_SIZE then
    some "left-middle"
  else if d.startX + d.width - HANDLE_SIZE ≤ x ∧ x ≤ d.startX + d.width + HANDLE_SIZE ∧
     d.startY + d.height / 2 - HANDLE_SIZE ≤ y ∧ y ≤ d.startY + d.height / 2 + HANDLE_SIZE then
    some "right-middle"
  else
    none

/-! ### Gesture state mutations (C1, C5, C6, C7, C9) -/

/-- `Math.max(0, Math.min(v, bound))`: the clamp used by the move and
resize branches of the mousemove listener. -/
def clampTo (v bound : ℚ) : ℚ := max 0 (min v bound)

/-- The draw-finalisation branch of the mouseup listener: normalize the
gesture corners, test the 1% minimum-size thresholds, and either push a
new record (state `unsaved`, relative coordinates divided by the canvas
pixel dimensions) or leave the collection unchanged (log only). -/
def finalizeDraw (canvasWidth canvasHeight : ℚ) (currentOntology : String)
    (currentClassId : ℤ) (annotationColor : String)
    (newAnnotationStart pt : Point) (anns : List Annotation) :
    List Annotation :=
  let normalizedStart : Point :=
    ⟨min newAnnotationStart.x pt.x, min newAnnotationStart.y pt.y⟩
  let normalizedEnd : Point :=
    ⟨max newAnnotationStart.x pt.x, max newAnnotationStart.y pt.y⟩
  let width := normalizedEnd.x - normalizedStart.x
  let height := normalizedEnd.y - normalizedStart.y
  let MIN_WIDTH := canvasWidth * (1/100)
  let MIN_HEIGHT := canvasHeight * (1/100)
  if width ≥ MIN_WIDTH ∧ height ≥ MIN_HEIGHT then
    anns ++ [{ start_relativ := ⟨normalizedStart.x / canvasWidth,
                                 normalizedStart.y / canvasHeight⟩,
               end_relativ := ⟨normalizedEnd.x / canvasWidth,
                               normalizedEnd.y / canvasHeight⟩,
               start := normalizedStart,
               endPt := normalizedEnd,
               name := currentOntology,
               class_id := currentClassId,
               annotationColor := annotationColor,
               state := "unsaved",
               ID := none }]
  else
    anns

/-- The effect of the keydown (Delete/Backspace) handler on the hovered record:
`state` becomes `"deleted"`; the record stays in the collection. -/
def keydownDelete (ann : Annotation) : Annotation := { ann with state := "deleted" }

/-- The keydown handler applied to the hovered record at position `i` of
the stored collection (mutation of the aliased object in the array). -/
def markDeletedAt : List Annotation → ℕ → List Annotation
  | [], _ => []
  | ann :: rest, 0 => keydownDelete ann :: rest
  | ann :: rest, n + 1 => ann :: markDeletedAt rest n

/-- The records actually drawn by `redraw`: it iterates the (in-place
reversed) collection and draws those with both corners present — always
the case for this record type — and `state != "deleted"`. -/
def redrawVisible (anns : List Annotation) : List Annotation :=
  anns.reverse.filter (fun ann => ann.state != "deleted")

/-- The offsets captured by the mousedown listener when a move gesture
starts on a hovered record. -/
def mousedownOffsets (lastX lastY : ℚ) (ann : Annotation) : ℚ × ℚ × ℚ × ℚ :=
  (lastX - ann.start.x, lastY - ann.start.y,
   lastX - ann.endPt.x, lastY - ann.endPt.y)

/-- One step of the moving branch of the mousemove listener: recompute the
corners from the captured offsets, clamp each coordinate to the canvas,
assign, and mark `edited`. -/
def moveStep (canvasWidth canvasHeight offsetX_start offsetY_start
    offsetX_end offsetY_end lastX lastY : ℚ) (ann : Annotation) :
    Annotation :=
  let newStartX := clampTo (lastX - offsetX_start) canvasWidth
  let newStartY := clampTo (lastY - offsetY_start) canvasHeight
  let newEndX := clampTo (lastX - offsetX_end) canvasWidth
  let newEndY := clampTo (lastY - offsetY_end) canvasHeight
  { ann with start := ⟨newStartX, newStartY⟩,
             endPt := ⟨newEndX, newEndY⟩,
             state := "edited" }

/-- One step of the resizing branch of the mousemove listener: overwrite
the coordinate(s) selected by `selectedHandle` with the transformed
pointer position, clamp ALL FOUR coordinates to the canvas, assign, and
mark `edited`. -/
def resizeStep (canvasWidth canvasHeight : ℚ) (selectedHandle : String)
    (ptx pty : ℚ) (ann : Annotation) : Annotation :=
  let coords :=
    if selectedHandle = "top-left" then
      (ptx, pty, ann.endPt.x, ann.endPt.y)
    else if selectedHandle = "top-right" then
      (ann.start.x, pty, ptx, ann.endPt.y)
    else if selectedHandle = "bottom-left" then
      (ptx, ann.start.y, ann.endPt.x, pty)
    else if selectedHandle = "bottom-right" then
      (ann.start.x, ann.start.y, ptx, pty)
    else if selectedHandle = "top-middle" then
      (ann.start.x, pty, ann.endPt.x, ann.endPt.y)
    else if selectedHandle = "bottom-middle" then
      (ann.start.x, ann.start.y, ann.endPt.x, pty)
    else if selectedHandle = "left-middle" then
      (ptx, ann.start.y, ann.endPt.x, ann.endPt.y)
    else if selectedHandle = "right-middle" then
      (ann.start.x, ann.start.y, ptx, ann.endPt.y)
    else
      (ann.start.x, ann.start.y, ann.endPt.x, ann.endPt.y)
  { ann with start := ⟨clampTo coords.1 canvasWidth, clampTo coords.2.1 canvasHeight⟩,
             endPt := ⟨clampTo coords.2.2.1 canvasWidth, clampTo coords.2.2.2 canvasHeight⟩,
             state := "edited" }

/-- All four stored coordinates lie within `[0, W] × [0, H]`. -/
def inCanvas (W H : ℚ) (ann : Annotation) : Prop :=
  0 ≤ ann.start.x ∧ ann.start.x ≤ W ∧ 0 ≤ ann.start.y ∧ ann.start.y ≤ H ∧
  0 ≤ ann.endPt.x ∧ ann.endPt.x ≤ W ∧ 0 ≤ ann.endPt.y ∧ ann.endPt.y ≤ H

instance (W H : ℚ) (ann : Annotation) : Decidable (inCanvas W H ann) := by
  unfold inCanvas
  infer_instance

theorem clampTo_eq_self {v bound : ℚ} (h0 : 0 ≤ v) (hb : v ≤ bound) :
    clampTo v bound = v := by
  unfold clampTo
  rw [min_eq_left hb, max_eq_right h0]

theorem clampTo_nonneg (v bound : ℚ) : 0 ≤ clampTo v bound :=
  le_max_left 0 _

theorem clampTo_le {v bound : ℚ} (hb : 0 ≤ bound) : clampTo v bound ≤ bound :=
  max_le hb (min_le_right v bound)

/-! ### Claim C1: draw-gesture finalisation -/

/-- C1: on pointer-release of a draw gesture, if the normalized width and
height meet the 1% thresholds exactly one new record is appended — corners
normalized with min/max so start ≤ end componentwise, state `"unsaved"`,
the active category name, class id and color, relative coordinates equal
to the normalized corners divided by the canvas pixel dimensions —
otherwise the collection is exactly unchanged. -/
theorem finalizeDraw_spec (W H : ℚ) (cls : String) (cid : ℤ) (color : String)
    (p0 p1 : Point) (anns : List Annotation) :
    (W * (1/100) ≤ max p0.x p1.x - min p0.x p1.x →
     H * (1/100) ≤ max p0.y p1.y - min p0.y p1.y →
       finalizeDraw W H cls cid color p0 p1 anns =
         anns ++ [{ start_relativ := ⟨min p0.x p1.x / W, min p0.y p1.y / H⟩,
                    end_relativ := ⟨max p0.x p1.x / W, max p0.y p1.y / H⟩,
                    start := ⟨min p0.x p1.x, min p0.y p1.y⟩,
                    endPt := ⟨max p0.x p1.x, max p0.y p1.y⟩,
                    name := cls, class_id := cid, annotationColor := color,
                    state := "unsaved", ID := none }] ∧
       min p0.x p1.x ≤ max p0.x p1.x ∧ min p0.y p1.y ≤ max p0.y p1.y ∧
       (finalizeDraw W H cls cid color p0 p1 anns).length = anns.length + 1) ∧
    (¬ (W * (1/100) ≤ max p0.x p1.x - min p0.x p1.x ∧
        H * (1/100) ≤ max p0.y p1.y - min p0.y p1.y) →
       finalizeDraw W H cls cid color p0 p1 anns = anns) := by
  constructor
  · intro h1 h2
    have heq : finalizeDraw W H cls cid color p0 p1 anns =
        anns ++ [{ start_relativ := ⟨min p0.x p1.x / W, min p0.y p1.y / H⟩,
                   end_relativ := ⟨max p0.x p1.x / W, max p0.y p1.y / H⟩,
                   start := ⟨min p0.x p1.x, min p0.y p1.y⟩,
                   endPt := ⟨max p0.x p1.x, max p0.y p1.y⟩,
                   name := cls, class_id := cid, annotationColor := color,
                   state := "unsaved", ID := none }] := by
      unfold finalizeDraw
      rw [if_pos (by exact ⟨h1, h2⟩)]
    refine ⟨heq, min_le_max, min_le_max, ?_⟩
    rw [heq]
    simp
  · intro h
    unfold finalizeDraw
    rw [if_neg (by exact h)]

/-- Witness for C1: a 20×30 box on a 100×100 canvas is appended; a box of
width 1/2 (below the 1-pixel minimum) is discarded. -/
theorem finalizeDraw_spec_witness :
    ((100 : ℚ) * (1/100) ≤ max (10 : ℚ) 30 - min (10 : ℚ) 30) ∧
    ((100 : ℚ) * (1/100) ≤ max (10 : ℚ) 40 - min (10 : ℚ) 40) ∧
    (finalizeDraw 100 100 "cat" 3 "#FF0000" ⟨10, 10⟩ ⟨30, 40⟩
      ([] : List Annotation)).length = 1 ∧
    finalizeDraw 100 100 "cat" 3 "#FF0000" ⟨10, 10⟩ ⟨21/2, 40⟩
      ([] : List Annotation) = [] := by
  have hx : (100 : ℚ) * (1/100) ≤ max (10 : ℚ) 30 - min (10 : ℚ) 30 := by
    rw [max_eq_right (by norm_num), min_eq_left (by norm_num)]
    norm_num
  have hy : (100 : ℚ) * (1/100) ≤ max (10 : ℚ) 40 - min (10 : ℚ) 40 := by
    rw [max_eq_right (by norm_num), min_eq_left (by norm_num)]
    norm_num
  have hnot : ¬ ((100 : ℚ) * (1/100) ≤ max (10 : ℚ) (21/2) - min (10 : ℚ) (21/2) ∧
      (100 : ℚ) * (1/100) ≤ max (10 : ℚ) 40 - min (10 : ℚ) 40) := by
    rw [max_eq_right (by norm_num), min_eq_left (by norm_num)]
    intro hcontra
    have := hcontra.1
    norm_num at this
  refine ⟨hx, hy, ?_, ?_⟩
  · have h := (finalizeDraw_spec 100 100 "cat" 3 "#FF0000" ⟨10, 10⟩ ⟨30, 40⟩
      ([] : List Annotation)).1 hx hy
    simpa using h.2.2.2
  · exact (finalizeDraw_spec 100 100 "cat" 3 "#FF0000" ⟨10, 10⟩ ⟨21/2, 40⟩
      ([] : List Annotation)).2 hnot

/-! ### Claim C10: hit testing is invariant under corner inversion -/

/-- Swap the stored corners on the chosen axes. -/
def swapCorners (sx sy : Bool) (ann : Annotation) : Annotation :=
  { ann with
      start := ⟨if sx then ann.endPt.x else ann.start.x,
                if sy then ann.endPt.y else ann.start.y⟩,
      endPt := ⟨if sx then ann.start.x else ann.endPt.x,
                if sy then ann.start.y else ann.endPt.y⟩ }

/-- C10: swapping the stored corners of an annotation on either or both axes
changes neither `getAnnotationDimensions`, nor the containment test of
`isHoveringOverAnnotation`, nor the handle returned by
`isHoveringOverHandle` — the box is normalized with componentwise min/max
before any zone test. -/
theorem hitTest_swap_invariant (sx sy : Bool) (ann : Annotation)
    (threshold x y : ℚ) :
    getAnnotationDimensions (swapCorners sx sy ann) =
      getAnnotationDimensions ann ∧
    annotationContains threshold x y (swapCorners sx sy ann) =
      annotationContains threshold x y ann ∧
    isHoveringOverHandle x y (swapCorners sx sy ann) =
      isHoveringOverHandle x y ann := by
  have hdims : getAnnotationDimensions (swapCorners sx sy ann) =
      getAnnotationDimensions ann := by
    cases sx <;> cases sy <;>
      simp [swapCorners, getAnnotationDimensions, min_comm, max_comm]
  refine ⟨hdims, ?_, ?_⟩
  · unfold annotationContains
    rw [hdims]
  · unfold isHoveringOverHandle
    rw [hdims]

/-! ### Claims C8 and C5: the in-place reverse and the missing deleted
filter in the hit test -/

/-- The first-drawn record of the overlapping pair. -/
def annFirst : Annotation :=
  { start_relativ := ⟨0, 0⟩, end_relativ := ⟨1/2, 1/2⟩,
    start := ⟨0, 0⟩, endPt := ⟨50, 50⟩,
    name := "first", class_id := 1, annotationColor := "#FF0000",
    state := "unsaved" }

/-- The second-drawn record, covering the same box. -/
def annSecond : Annotation := { annFirst with name := "second" }

theorem annFirst_contains : annotationContains 20 25 25 annFirst = true := by
  norm_num [annotationContains, getAnnotationDimensions, annFirst,
    decide_eq_true_eq, min_def, max_def, abs_of_nonneg]

theorem annSecond_contains : annotationContains 20 25 25 annSecond = true := by
  norm_num [annotationContains, getAnnotationDimensions, annSecond, annFirst,
    decide_eq_true_eq, min_def, max_def, abs_of_nonneg]

/-- The first hit-test query against the stored pair. -/
def hitQuery1 : Option Annotation × List Annotation :=
  isHoveringOverAnnotation 20 25 25 [annFirst, annSecond]

/-- The identical query repeated against the collection the first query
left behind. -/
def hitQuery2 : Option Annotation × List Annotation :=
  isHoveringOverAnnotation 20 25 25 hitQuery1.2

/-- C8 (failing input): the first query returns the most-recently-drawn
record but reverses the stored collection in place, so the identical
second query returns the FIRST-drawn record — the stored order is not
preserved and priority alternates between calls. -/
theorem hitTest_reverses_order :
    hitQuery1.1 = some { annSecond with selected := true } ∧
    hitQuery1.2.map (fun ann => ann.name) = ["second", "first"] ∧
    hitQuery2.1 = some { annFirst with selected := true } := by
  have h1 : hitQuery1 =
      (some { annSecond with selected := true },
       [{ annSecond with selected := true }, annFirst]) := by
    unfold hitQuery1 isHoveringOverAnnotation
    rw [show ([annFirst, annSecond] : List Annotation).reverse =
        [annSecond, annFirst] by rfl]
    unfold scanLoop
    rw [if_pos annSecond_contains]
  have h2 : hitQuery2 =
      (some { annFirst with selected := true },
       [{ annFirst with selected := true },
        { annSecond with selected := true }]) := by
    unfold hitQuery2 isHoveringOverAnnotation
    rw [h1]
    rw [show ([{ annSecond with selected := true }, annFirst] :
        List Annotation).reverse =
        [annFirst, { annSecond with selected := true }] by rfl]
    unfold scanLoop
    rw [if_pos annFirst_contains]
  refine ⟨?_, ?_, ?_⟩
  · rw [h1]
  · rw [h1]
    simp [annSecond, annFirst]
  · rw [h2]

/-- C5 (counterexample): after the keydown handler marks the hovered
record deleted, an immediate hit test at a point inside it STILL returns
it — `isHoveringOverAnnotation` never consults `state`, so deleted records
are not excluded from subsequent hit tests. -/
theorem deleted_still_hit_counterexample :
    (keydownDelete annFirst).state = "deleted" ∧
    ( isHoveringOverAnnotation 20 25 25 [keydownDelete annFirst]).1 =
      some { keydownDelete annFirst with selected := true } := by
  refine ⟨rfl, ?_⟩
  unfold isHoveringOverAnnotation
  rw [show ([keydownDelete annFirst] : List Annotation).reverse =
      [keydownDelete annFirst] by rfl]
  unfold scanLoop
  rw [if_pos (by exact annFirst_contains)]

theorem markDeletedAt_length (anns : List Annotation) (i : ℕ) :
    (markDeletedAt anns i).length = anns.length := by
  induction anns generalizing i with
  | nil => rfl
  | cons ann rest ih =>
      cases i with
      | zero => rfl
      | succ n => simp [markDeletedAt, ih n]

theorem markDeletedAt_getElem (anns : List Annotation) (i : ℕ) :
    (markDeletedAt anns i)[i]? = (anns[i]?).map keydownDelete := by
  induction anns generalizing i with
  | nil => simp [markDeletedAt]
  | cons ann rest ih =>
      cases i with
      | zero => simp [markDeletedAt]
      | succ n => simpa [markDeletedAt] using ih n

theorem annotationContains_keydownDelete (threshold x y : ℚ)
    (ann : Annotation) :
    annotationContains threshold x y (keydownDelete ann) =
      annotationContains threshold x y ann := rfl

theorem scanLoop_isSome_map (threshold x y : ℚ) (l : List Annotation) :
    ((scanLoop threshold x y (l.map keydownDelete)).1).isSome =
      ((scanLoop threshold x y l).1).isSome := by
  induction l with
  | nil => rfl
  | cons ann rest ih =>
      simp only [List.map_cons, scanLoop, annotationContains_keydownDelete]
      by_cases hc : annotationContains threshold x y ann = true
      · rw [if_pos hc, if_pos hc]
        rfl
      · rw [if_neg hc, if_neg hc]
        simpa using ih

/-- C5 (amended): the delete command marks the hovered record `"deleted"`
in place — length unchanged, record retained — and `redraw` skips deleted
records; but hit tests do not consult `state`, so whether a query finds a
record is unchanged if every record is marked deleted. -/
theorem delete_marks_and_unrenders (anns : List Annotation) (i : ℕ)
    (h : i < anns.length) (threshold x y : ℚ) :
    (markDeletedAt anns i).length = anns.length ∧
    (markDeletedAt anns i)[i]? = (anns[i]?).map keydownDelete ∧
    (∀ ann, (keydownDelete ann).state = "deleted") ∧
    (∀ ann ∈ redrawVisible (markDeletedAt anns i), ann.state ≠ "deleted") ∧
    (( isHoveringOverAnnotation threshold x y (anns.map keydownDelete)).1).isSome =
      (( isHoveringOverAnnotation threshold x y anns).1).isSome := by
  refine ⟨markDeletedAt_length anns i, markDeletedAt_getElem anns i,
          fun ann => rfl, ?_, ?_⟩
  · intro ann hmem
    unfold redrawVisible at hmem
    rw [List.mem_filter] at hmem
    simpa using hmem.2
  · unfold isHoveringOverAnnotation
    rw [← List.map_reverse]
    exact scanLoop_isSome_map threshold x y anns.reverse

/-- Witness for C5 (amended) at a singleton collection. -/
theorem delete_marks_and_unrenders_witness :
    0 < ([annFirst] : List Annotation).length ∧
    (markDeletedAt [annFirst] 0).length = ([annFirst] : List Annotation).length := by
  refine ⟨by simp, ?_⟩
  exact (delete_marks_and_unrenders [annFirst] 0 (by simp) 20 25 25).1

/-! ### Claim C6: moving -/

/-- The record moved in the C6 counterexample (a 40×40 box). -/
def annMove : Annotation :=
  { start_relativ := ⟨1/10, 1/10⟩, end_relativ := ⟨1/2, 1/2⟩,
    start := ⟨10, 10⟩, endPt := ⟨50, 50⟩,
    name := "box", class_id := 1, annotationColor := "#FF0000",
    state := "unsaved" }

/-- C6 counterexample: the gesture grabs `annMove` at `(30, 30)` (offsets
captured per the mousedown listener) and the pointer moves to `(0, 30)`;
`start.x` clamps to `0` while `end.x` does not, so the width shrinks from
`40` to `20` — the move step is not a rigid translation. -/
theorem moveStep_not_rigid_counterexample :
    ((moveStep 100 100 (mousedownOffsets 30 30 annMove).1
        (mousedownOffsets 30 30 annMove).2.1
        (mousedownOffsets 30 30 annMove).2.2.1
        (mousedownOffsets 30 30 annMove).2.2.2 0 30 annMove).endPt.x -
      (moveStep 100 100 (mousedownOffsets 30 30 annMove).1
        (mousedownOffsets 30 30 annMove).2.1
        (mousedownOffsets 30 30 annMove).2.2.1
        (mousedownOffsets 30 30 annMove).2.2.2 0 30 annMove).start.x) ≠
      annMove.endPt.x - annMove.start.x := by
  norm_num [moveStep, mousedownOffsets, annMove, clampTo, min_def, max_def]

/-- C6 (amended): each move step recomputes both corners from the offsets
captured at gesture start and clamps them to the canvas; whenever the
recomputed corners already lie within the canvas the step is a rigid
translation and width and height are preserved exactly, and the record is
marked `edited`. -/
theorem moveStep_rigid_within_bounds (W H x0 y0 x y : ℚ) (ann : Annotation)
    (h1 : 0 ≤ x - (x0 - ann.start.x)) (h2 : x - (x0 - ann.start.x) ≤ W)
    (h3 : 0 ≤ y - (y0 - ann.start.y)) (h4 : y - (y0 - ann.start.y) ≤ H)
    (h5 : 0 ≤ x - (x0 - ann.endPt.x)) (h6 : x - (x0 - ann.endPt.x) ≤ W)
    (h7 : 0 ≤ y - (y0 - ann.endPt.y)) (h8 : y - (y0 - ann.endPt.y) ≤ H) :
    (moveStep W H (mousedownOffsets x0 y0 ann).1
        (mousedownOffsets x0 y0 ann).2.1
        (mousedownOffsets x0 y0 ann).2.2.1
        (mousedownOffsets x0 y0 ann).2.2.2 x y ann).start.x =
      ann.start.x + (x - x0) ∧
    (moveStep W H (mousedownOffsets x0 y0 ann).1
        (mousedownOffsets x0 y0 ann).2.1
        (mousedownOffsets x0 y0 ann).2.2.1
        (mousedownOffsets x0 y0 ann).2.2.2 x y ann).start.y =
      ann.start.y + (y - y0) ∧
    (moveStep W H (mousedownOffsets x0 y0 ann).1
        (mousedownOffsets x0 y0 ann).2.1
        (mousedownOffsets x0 y0 ann).2.2.1
        (mousedownOffsets x0 y0 ann).2.2.2 x y ann).endPt.x =
      ann.endPt.x + (x - x0) ∧
    (moveStep W H (mousedownOffsets x0 y0 ann).1
        (mousedownOffsets x0 y0 ann).2.1
        (mousedownOffsets x0 y0 ann).2.2.1
        (mousedownOffsets x0 y0 ann).2.2.2 x y ann).endPt.y =
      ann.endPt.y + (y - y0) ∧
    ((moveStep W H (mousedownOffsets x0 y0 ann).1
        (mousedownOffsets x0 y0 ann).2.1
        (mousedownOffsets x0 y0 ann).2.2.1
        (mousedownOffsets x0 y0 ann).2.2.2 x y ann).endPt.x -
      (moveStep W H (mousedownOffsets x0 y0 ann).1
        (mousedownOffsets x0 y0 ann).2.1
        (mousedownOffsets x0 y0 ann).2.2.1
        (mousedownOffsets x0 y0 ann).2.2.2 x y ann).start.x =
      ann.endPt.x - ann.start.x) ∧
    ((moveStep W H (mousedownOffsets x0 y0 ann).1
        (mousedownOffsets x0 y0 ann).2.1
        (mousedownOffsets x0 y0 ann).2.2.1
        (mousedownOffsets x0 y0 ann).2.2.2 x y ann).endPt.y -
      (moveStep W H (mousedownOffsets x0 y0 ann).1
        (mousedownOffsets x0 y0 ann).2.1
        (mousedownOffsets x0 y0 ann).2.2.1
        (mousedownOffsets x0 y0 ann).2.2.2 x y ann).start.y =
      ann.endPt.y - ann.start.y) ∧
    (moveStep W H (mousedownOffsets x0 y0 ann).1
        (mousedownOffsets x0 y0 ann).2.1
        (mousedownOffsets x0 y0 ann).2.2.1
        (mousedownOffsets x0 y0 ann).2.2.2 x y ann).state = "edited" := by
  simp only [moveStep, mousedownOffsets]
  rw [clampTo_eq_self h1 h2, clampTo_eq_self h3 h4,
      clampTo_eq_self h5 h6, clampTo_eq_self h7 h8]
  refine ⟨by ring, by ring, by ring, by ring, by ring, by ring, trivial⟩

/-- Witness for C6 (amended): grab `annMove` at `(30, 30)` and move the
pointer to `(35, 32)`; all recomputed corners stay inside the canvas. -/
theorem moveStep_rigid_within_bounds_witness :
    (0 ≤ (35 : ℚ) - (30 - annMove.start.x) ∧ (35 : ℚ) - (30 - annMove.start.x) ≤ 100) ∧
    (0 ≤ (32 : ℚ) - (30 - annMove.start.y) ∧ (32 : ℚ) - (30 - annMove.start.y) ≤ 100) ∧
    (0 ≤ (35 : ℚ) - (30 - annMove.endPt.x) ∧ (35 : ℚ) - (30 - annMove.endPt.x) ≤ 100) ∧
    (0 ≤ (32 : ℚ) - (30 - annMove.endPt.y) ∧ (32 : ℚ) - (30 - annMove.endPt.y) ≤ 100) ∧
    (moveStep 100 100 (mousedownOffsets 30 30 annMove).1
        (mousedownOffsets 30 30 annMove).2.1
        (mousedownOffsets 30 30 annMove).2.2.1
        (mousedownOffsets 30 30 annMove).2.2.2 35 32 annMove).endPt.x -
      (moveStep 100 100 (mousedownOffsets 30 30 annMove).1
        (mousedownOffsets 30 30 annMove).2.1
        (mousedownOffsets 30 30 annMove).2.2.1
        (mousedownOffsets 30 30 annMove).2.2.2 35 32 annMove).start.x =
      annMove.endPt.x - annMove.start.x := by
  have hb1 : 0 ≤ (35 : ℚ) - (30 - annMove.start.x) := by norm_num [annMove]
  have hb2 : (35 : ℚ) - (30 - annMove.start.x) ≤ 100 := by norm_num [annMove]
  have hb3 : 0 ≤ (32 : ℚ) - (30 - annMove.start.y) := by norm_num [annMove]
  have hb4 : (32 : ℚ) - (30 - annMove.start.y) ≤ 100 := by norm_num [annMove]
  have hb5 : 0 ≤ (35 : ℚ) - (30 - annMove.endPt.x) := by norm_num [annMove]
  have hb6 : (35 : ℚ) - (30 - annMove.endPt.x) ≤ 100 := by norm_num [annMove]
  have hb7 : 0 ≤ (32 : ℚ) - (30 - annMove.endPt.y) := by norm_num [annMove]
  have hb8 : (32 : ℚ) - (30 - annMove.endPt.y) ≤ 100 := by norm_num [annMove]
  refine ⟨⟨hb1, hb2⟩, ⟨hb3, hb4⟩, ⟨hb5, hb6⟩, ⟨hb7, hb8⟩, ?_⟩
  exact (moveStep_rigid_within_bounds 100 100 30 30 35 32 annMove
    hb1 hb2 hb3 hb4 hb5 hb6 hb7 hb8).2.2.2.2.1

/-! ### Claim C7: resizing -/

/-- Handles whose branch overwrites `newStartX` with the pointer. -/
def handleControlsStartX (handle : String) : Bool :=
  handle = "top-left" || handle = "bottom-left" || handle = "left-middle"

/-- Handles whose branch overwrites `newStartY` with the pointer. -/
def handleControlsStartY (handle : String) : Bool :=
  handle = "top-left" || handle = "top-right" || handle = "top-middle"

/-- Handles whose branch overwrites `newEndX` with the pointer. -/
def handleControlsEndX (handle : String) : Bool :=
  handle = "top-right" || handle = "bottom-right" || handle = "right-middle"

/-- Handles whose branch overwrites `newEndY` with the pointer. -/
def handleControlsEndY (handle : String) : Bool :=
  handle = "bottom-left" || handle = "bottom-right" || handle = "bottom-middle"

/-- The record resized in the C7 counterexample: its stored `start.x` is
`-5`, as a draw gesture under a pan can create (no clamping at creation,
see the C9 counterexample). -/
def annResize : Annotation := { annMove with start := ⟨-5, 10⟩ }

/-- C7 counterexample: a resize step via the `top-middle` handle — which
controls only `start.y` — also changes `start.x` (from `-5` to `0`),
because the step re-clamps all four coordinates. -/
theorem resizeStep_changes_unrelated_counterexample :
    (resizeStep 100 100 "top-middle" 30 5 annResize).start.x ≠
      annResize.start.x := by
  have hx : (resizeStep 100 100 "top-middle" 30 5 annResize).start.x =
      clampTo (-5) 100 := by
    simp [resizeStep, annResize, annMove]
  rw [hx]
  norm_num [annResize, annMove, clampTo, min_def, max_def]

/-- C7 (amended): each resize step overwrites exactly the coordinate(s)
controlled by the handle selected at gesture start (two for a corner
handle, one for an edge-midpoint handle) with the clamped pointer
position, then re-clamps all four coordinates; the uncontrolled
coordinates are unchanged provided the record already lies within the
canvas bounds; the record is marked `edited`. -/
theorem resizeStep_frame_effect (W H : ℚ) (handle : String) (px py : ℚ)
    (ann : Annotation) (hin : inCanvas W H ann) :
    (handleControlsStartX handle = true →
       (resizeStep W H handle px py ann).start.x = clampTo px W) ∧
    (handleControlsStartX handle = false →
       (resizeStep W H handle px py ann).start.x = ann.start.x) ∧
    (handleControlsStartY handle = true →
       (resizeStep W H handle px py ann).start.y = clampTo py H) ∧
    (handleControlsStartY handle = false →
       (resizeStep W H handle px py ann).start.y = ann.start.y) ∧
    (handleControlsEndX handle = true →
       (resizeStep W H handle px py ann).endPt.x = clampTo px W) ∧
    (handleControlsEndX handle = false →
       (resizeStep W H handle px py ann).endPt.x = ann.endPt.x) ∧
    (handleControlsEndY handle = true →
       (resizeStep W H handle px py ann).endPt.y = clampTo py H) ∧
    (handleControlsEndY handle = false →
       (resizeStep W H handle px py ann).endPt.y = ann.endPt.y) ∧
    (resizeStep W H handle px py ann).state = "edited" := by
  obtain ⟨ha1, ha2, ha3, ha4, ha5, ha6, ha7, ha8⟩ := hin
  unfold resizeStep
  split_ifs with hh1 hh2 hh3 hh4 hh5 hh6 hh7 hh8 <;>
    simp_all [handleControlsStartX, handleControlsStartY, handleControlsEndX,
      handleControlsEndY, clampTo_eq_self ha1 ha2, clampTo_eq_self ha3 ha4,
      clampTo_eq_self ha5 ha6, clampTo_eq_self ha7 ha8]

/-- Witness for C7 (amended): resizing `annMove` (inside a 100×100 canvas)
via its `bottom-right` handle moves only the end corner. -/
theorem resizeStep_frame_effect_witness :
    inCanvas 100 100 annMove ∧
    (resizeStep 100 100 "bottom-right" 60 70 annMove).start.x =
      annMove.start.x ∧
    (resizeStep 100 100 "bottom-right" 60 70 annMove).start.y =
      annMove.start.y ∧
    (resizeStep 100 100 "bottom-right" 60 70 annMove).endPt.x =
      clampTo 60 100 ∧
    (resizeStep 100 100 "bottom-right" 60 70 annMove).endPt.y =
      clampTo 70 100 := by
  have hin : inCanvas 100 100 annMove := by
    norm_num [inCanvas, annMove]
  have h := resizeStep_frame_effect 100 100 "bottom-right" 60 70 annMove hin
  refine ⟨hin, h.2.1 (by rfl), h.2.2.2.1 (by rfl), h.2.2.2.2.1 (by rfl),
    h.2.2.2.2.2.2.1 (by rfl)⟩

/-! ### Claim C9: coordinates in canvas bounds -/

/-- The pan in force for the C9 counterexample: the canvas has been
translated by `(-50, -50)`. -/
def mPan : Mat := translateMat (-50) (-50)

/-- C9 counterexample: a draw gesture under the pan `mPan`, from device
point `(0, 0)` to device point `(60, 60)`, passes the size thresholds and
appends a record whose `end.x` is `110` — outside the 100×100 canvas:
creation clamps nothing. -/
theorem creation_out_of_bounds_counterexample :
    (finalizeDraw 100 100 "cat" 1 "#FF0000" (transformedPoint mPan 0 0)
        (transformedPoint mPan 60 60) []).map (fun ann => ann.endPt.x) =
      [110] ∧ ¬ ((110 : ℚ) ≤ 100) := by
  constructor
  · norm_num [finalizeDraw, transformedPoint, mPan, translateMat, Mat.inverse,
      Mat.apply, Mat.det, min_def, max_def]
  · norm_num

/-- C9 (amended): out-of-range coordinates are clamped to
`[0, canvasWidth] × [0, canvasHeight]` by every move step and every resize
step (given nonnegative canvas dimensions); creation applies no clamping,
so a record created under a pan/zoom can carry out-of-range coordinates
until the first move or resize touches it. -/
theorem move_resize_clamped (W H : ℚ) (hW : 0 ≤ W) (hH : 0 ≤ H)
    (oXs oYs oXe oYe x y px py : ℚ) (handle : String) (ann : Annotation) :
    inCanvas W H (moveStep W H oXs oYs oXe oYe x y ann) ∧
    inCanvas W H (resizeStep W H handle px py ann) := by
  constructor
  · simp only [moveStep, inCanvas]
    exact ⟨clampTo_nonneg _ _, clampTo_le hW, clampTo_nonneg _ _,
           clampTo_le hH, clampTo_nonneg _ _, clampTo_le hW,
           clampTo_nonneg _ _, clampTo_le hH⟩
  · simp only [resizeStep, inCanvas]
    exact ⟨clampTo_nonneg _ _, clampTo_le hW, clampTo_nonneg _ _,
           clampTo_le hH, clampTo_nonneg _ _, clampTo_le hW,
           clampTo_nonneg _ _, clampTo_le hH⟩

/-- Witness for C9 (amended) on a 100×100 canvas, using a record that
starts out of range. -/
theorem move_resize_clamped_witness :
    (0 : ℚ) ≤ 100 ∧
    inCanvas 100 100 (moveStep 100 100 20 20 (-20) (-20) 0 30 annResize) ∧
    inCanvas 100 100 (resizeStep 100 100 "top-middle" 30 5 annResize) := by
  have h := move_resize_clamped 100 100 (by norm_num) (by norm_num)
    20 20 (-20) (-20) 0 30 30 5 "top-middle" annResize
  exact ⟨by norm_num, h.1, h.2⟩

end AnnotateJs
